import Mathlib

/-!
Verification development for the PKP (Pyrolysis Kinetic Preprocessor) driver,
`pkp/__init__.py`.  The driver reads a configuration (fuel composition,
operating conditions, per-model settings), runs each active detailed model
once per configured operating-condition run, narrows the resulting wide
time-series tables to single-species target conditions, and calibrates an
empirical model against those targets with an evolutionary algorithm.

Numeric values of the Python code (numpy floats) are embedded as exact
rationals `ℚ`; the claims under study are structural (which data flows
where, which errors propagate), not about floating-point rounding.
External side effects of the driver (matplotlib plotting, CSV export,
logging) are I/O only and carry no data back into the computation, so they
are dropped from the embedding.

The repository snapshot contains only `pkp/__init__.py` and `setup.py`.
The modules `pkp.cpd` / `pkp.polimi` / `pkp.biopolimi` (detailed models),
`pkp.empirical_model` and `pkp.evolution` are imported by the driver but
are not part of the snapshot; where their behaviour decides a claim they
are modelled from the specification, and each such definition carries a
doc comment starting with `Modelled from the spec:`.
-/

/-- An operating-condition schedule for one run: the `array (2, N_cond)`
of the source docstring, embedded as a list of (time, temperature) pairs. -/
abbrev OpCond : Type := List (ℚ × ℚ)

/-- The `operating_conditions` section of the configuration: the keys
`pressure`, `runs`, and the run-specific entries `run0`, `run1`, ...
(`byKey` embeds the dictionary lookup by string key; the driver accesses
entries both as `operating_conditions['run{}'.format(n)]` and, in the
plotting helper, by the run-name string directly). -/
structure OperatingConditions where
  pressure : ℚ
  runs : ℕ
  byKey : String → OpCond

/-- Settings of one detailed model (`yml_input[model]`): the `active`
flag, the `fit` section (fit name to fit settings), and the remaining
solver parameters passed through `set_parameters(**model_settings)`. -/
structure ModelSettings where
  active : Bool
  params : List (String × ℚ)

/-- The configuration read by `ReadConfiguration.__init__`: fuel
composition, pressure and operating conditions, and per-model settings
(the dynamic attributes `self.CPD`, `self.Polimi`, `self.BioPolimi`,
embedded as the lookup `modelSettings`). -/
structure PKPConfig where
  ultimate_analysis : List (String × ℚ)
  proximate_analysis : List (String × ℚ)
  operating_conditions : OperatingConditions
  modelSettings : String → ModelSettings

/-- A time-indexed table of named yield channels: the `pd.DataFrame`
returned by one detailed-model run (`res.index` is the time index,
`columns` the named series such as tar, light_gas, char, volatiles, T). -/
structure DataFrame where
  index : List ℚ
  columns : List (String × List ℚ)
deriving DecidableEq

instance : Inhabited DataFrame := ⟨⟨[], []⟩⟩

/-- Column selection `res[species]` on a `DataFrame` (empty when the
column is absent; the Python code would raise a `KeyError` there, a case
the claims always exclude by hypothesis). -/
def DataFrame.col (df : DataFrame) (species : String) : List ℚ :=
  (df.columns.lookup species).getD []

/-- The full argument tuple with which `_run_single` invokes a detailed
model: constructor keywords `ultimate_analysis`, `proximate_analysis`,
`pressure` and `name='{model}-Run{n}'`, the solver settings passed via
`set_parameters(**model_settings)`, and the run-specific
`operating_conditions['run{n}']` assigned before `run.run()` is called. -/
structure DetailedModelCall where
  ultimate_analysis : List (String × ℚ)
  proximate_analysis : List (String × ℚ)
  pressure : ℚ
  name : String
  settings : ModelSettings
  operating_conditions : OpCond

/-- Modelled from the spec: the detailed-model solvers (`pkp.cpd`,
`pkp.polimi`, `pkp.biopolimi`) are not part of the snapshot; per the
error-handling design a failing run surfaces a `SimulationError` tagged
with the run identifier, so the abstract simulator's error type carries
that tag and a message. -/
structure SimulationError where
  runId : String
  msg : String
deriving DecidableEq

/-- The dictionary key `'run{}'.format(n)` under which run `n`'s result
is stored. -/
def runKey (n : ℕ) : String := "run" ++ toString n

/-- The argument tuple `_run_single` passes to the detailed model for run
`n` of `model`: shared fuel composition and pressure from the
configuration, the run name `'{model}-Run{n}'`, the model settings, and
the run-specific operating conditions stored under `'run{n}'`. -/
def mkCall (cfg : PKPConfig) (model : String) (ms : ModelSettings) (n : ℕ) :
    DetailedModelCall :=
  { ultimate_analysis := cfg.ultimate_analysis
    proximate_analysis := cfg.proximate_analysis
    pressure := cfg.operating_conditions.pressure
    name := model ++ "-Run" ++ toString n
    settings := ms
    operating_conditions := cfg.operating_conditions.byKey (runKey n) }

/-- Embedding of `PKPRunner._run_single`: build the detailed-model object
with the shared fuel/pressure settings and the run-specific operating
condition, then invoke its `run()` method (the abstract `simulate`). -/
def run_single (simulate : DetailedModelCall → Except SimulationError DataFrame)
    (cfg : PKPConfig) (model : String) (ms : ModelSettings) (n : ℕ) :
    Except SimulationError DataFrame :=
  simulate (mkCall cfg model ms n)

/-- The loop body of `PKPRunner._run_model` over the run indices, also
recording the trace of detailed-model invocations made.  Each iteration
calls `_run_single` and stores the result under `'run{n}'`; an exception
raised by a simulation is not caught anywhere in `_run_model` or
`_run_single`, so it aborts the loop and propagates (the `Except` error),
discarding every result collected so far. -/
def run_model_loop (simulate : DetailedModelCall → Except SimulationError DataFrame)
    (cfg : PKPConfig) (model : String) (ms : ModelSettings) :
    List ℕ → List DetailedModelCall × Except SimulationError (List (String × DataFrame))
  | [] => ([], .ok [])
  | n :: ns =>
    match run_single simulate cfg model ms n with
    | .error e => ([mkCall cfg model ms n], .error e)
    | .ok res =>
      let rest := run_model_loop simulate cfg model ms ns
      (mkCall cfg model ms n :: rest.1,
       match rest.2 with
       | .error e => .error e
       | .ok l => .ok ((runKey n, res) :: l))

/-- Embedding of `PKPRunner._run_model`: when the model is active, run all
configured runs in order, collecting `results['run{n}']`; when inactive,
`results = None`.  The returned trace lists every detailed-model
invocation made.  (The `vol_composition` final-yield table is exported to
CSV and the per-run plots are written to PNG; both are write-only I/O and
are dropped here.) -/
def run_model (simulate : DetailedModelCall → Except SimulationError DataFrame)
    (cfg : PKPConfig) (model : String) :
    List DetailedModelCall × Except SimulationError (Option (List (String × DataFrame))) :=
  let ms := cfg.modelSettings model
  if ms.active then
    let r := run_model_loop simulate cfg model ms
      (List.range cfg.operating_conditions.runs)
    (r.1, r.2.map some)
  else
    ([], .ok none)

/-- One run's optimization target, as built inside `PKPRunner._fit_model`:
`{'t': np.array(res.index), 'y': np.array(res[fit['species']])}`. -/
structure TargetCondition where
  t : List ℚ
  y : List ℚ
deriving DecidableEq

instance : Inhabited TargetCondition := ⟨⟨[], []⟩⟩

/-- The `target_conditions` dictionary comprehension of
`PKPRunner._fit_model`: one entry per run of the detailed-model results,
keyed by the run identifier, with `t` the result's time index and `y` the
column named by the fit's configured species. -/
def mkTargetConditions (species : String) (results : List (String × DataFrame)) :
    List (String × TargetCondition) :=
  results.map fun p => (p.1, ⟨p.2.index, p.2.col species⟩)

/-- The per-fit settings dictionary handed to `PKPRunner._evolution`
(`fit_settings`): empirical-model name, species, parameter bounds and
initial values, fitting method, and the evolutionary-algorithm knobs.
`npop` and `ngen` are embedded as `ℤ` so that the non-positive
configurations the spec rejects are expressible. -/
structure FitSettings where
  model : String
  species : String
  parameters_min : List ℚ
  parameters_max : List ℚ
  parameters_init : List ℚ
  method : String
  npop : ℤ
  ngen : ℤ
  mu : ℤ
  lambda_ : ℤ
  cxpb : ℚ
  mutpb : ℚ
deriving DecidableEq

/-- Modelled from the spec: error taxonomy entry `ConfigurationError` for
invalid population/generation counts and probabilities (the validating
constructor lives in `pkp.evolution`, which is not in the snapshot). -/
inductive ConfigurationError where
  | invalidNpop (npop : ℤ)
  | invalidNgen (ngen : ℤ)
  | invalidProbability (p : ℚ)
deriving DecidableEq

/-- The evolutionary calibrator object constructed in
`PKPRunner._evolution` (`pkp.evolution.EvolutionBinary` /
`pkp.evolution.Evolution`): the six constructor keywords, plus the flag
`binary` distinguishing the binary-encoded class (`EvolutionBinary`,
`binary = true`) from the real-valued one (`Evolution`, `binary = false`). -/
structure Evolution where
  npop : ℤ
  ngen : ℤ
  cxpb : ℚ
  mutpb : ℚ
  mu : ℤ
  lambda_ : ℤ
  binary : Bool
deriving DecidableEq

/-- Modelled from the spec: the validating constructor of the
evolutionary calibrator (`pkp.evolution` is not in the snapshot).  Per
the spec, configuring fails with a `ConfigurationError` if `npop <= 0`,
`ngen <= 0`, or any of the probabilities `cxpb`, `mutpb` lies outside
`[0, 1]`; otherwise the calibrator object is created. -/
def Evolution.configure (npop ngen mu lambda_ : ℤ) (cxpb mutpb : ℚ)
    (binary : Bool) : Except ConfigurationError Evolution :=
  if npop ≤ 0 then .error (.invalidNpop npop)
  else if ngen ≤ 0 then .error (.invalidNgen ngen)
  else if cxpb < 0 ∨ 1 < cxpb then .error (.invalidProbability cxpb)
  else if mutpb < 0 ∨ 1 < mutpb then .error (.invalidProbability mutpb)
  else .ok ⟨npop, ngen, cxpb, mutpb, mu, lambda_, binary⟩

/-- The calibrator-construction fragment of `PKPRunner._evolution`: the
local variable `binary = True` is hard-coded, and the branch `if binary:`
chooses `EvolutionBinary(npop=..., ngen=..., cxpb=..., mutpb=..., mu=...,
lambda_=...)`; the `else` branch would construct the real-valued
`Evolution` with the same keywords. -/
def chooseGA (fs : FitSettings) : Except ConfigurationError Evolution :=
  let binary := true
  if binary then
    Evolution.configure fs.npop fs.ngen fs.mu fs.lambda_ fs.cxpb fs.mutpb true
  else
    Evolution.configure fs.npop fs.ngen fs.mu fs.lambda_ fs.cxpb fs.mutpb false

/-- Modelled from the spec: per-generation convergence statistics
`{generation index, min, max, avg, std}` of fitness across the
population (`pkp.evolution`'s log is not in the snapshot; the driver
reads its `min`/`max`/`avg`/`std` columns in `_plot_evolution`).  The
dispersion is kept as the variance `fvar` — the spec's `std` is its
square root — so that the record stays in exact arithmetic. -/
structure ConvergenceRecord where
  gen : ℕ
  fmin : ℚ
  fmax : ℚ
  favg : ℚ
  fvar : ℚ
deriving DecidableEq

/-- Running minimum of a list of fitness values below a seed value. -/
def foldMin (a : ℚ) : List ℚ → ℚ
  | [] => a
  | x :: xs => foldMin (min a x) xs

/-- Running maximum of a list of fitness values above a seed value. -/
def foldMax (a : ℚ) : List ℚ → ℚ
  | [] => a
  | x :: xs => foldMax (max a x) xs

/-- Modelled from the spec: the statistics record appended after a
generation, summarizing min, max, average and dispersion of the
population's fitness values (degenerate zeros for an empty population,
which a valid configuration never produces). -/
def popStats (g : ℕ) : List ℚ → ConvergenceRecord
  | [] => ⟨g, 0, 0, 0, 0⟩
  | x :: xs =>
    let n : ℚ := xs.length + 1
    let avg := (x + xs.sum) / n
    ⟨g, foldMin x xs, foldMax x xs, avg,
      (((x :: xs).map fun v => (v - avg) ^ 2).sum) / n⟩

/-- Fueled worker of `splitChunks` (the fuel, instantiated with the list
length, only makes the recursion structural). -/
def splitChunksF {α : Type} (c : ℕ) : ℕ → List α → List (List α)
  | _, [] => []
  | 0, l => [l]
  | fuel + 1, x :: xs => (x :: xs.take c) :: splitChunksF c fuel (xs.drop c)

/-- Split a list into chunks of `c + 1` elements each (the last chunk may
be shorter); used to model dispatching fitness evaluations to a worker
pool. -/
def splitChunks {α : Type} (c : ℕ) (l : List α) : List (List α) :=
  splitChunksF c l.length l

/-- Modelled from the spec: parallel fitness evaluation over `n_p`
workers.  The population is partitioned into contiguous chunks, one batch
per worker, each worker maps the pure fitness function over its chunk,
and the results are collected back in submission order (re-sorted by
individual identity, not by completion order). -/
def parallelEval {G : Type} (n_p : ℕ) (fitness : G → ℚ) (pop : List G) :
    List (G × ℚ) :=
  let csize := (pop.length + n_p - 1) / n_p
  ((splitChunks (csize - 1) pop).map fun chunk =>
    chunk.map fun g => (g, fitness g)).flatten

/-- Insert an element into a sorted list, before the first element it
compares less-or-equal to (stable: an earlier element precedes later
elements that compare equal). -/
def insertSorted {α : Type} (le : α → α → Bool) (x : α) : List α → List α
  | [] => [x]
  | y :: ys => if le x y then x :: y :: ys else y :: insertSorted le x ys

/-- Stable ascending sort by the given comparison (insertion sort; the
Python counterparts are `sorted` and the toolkit's best-selection). -/
def sortBy {α : Type} (le : α → α → Bool) : List α → List α
  | [] => []
  | x :: xs => insertSorted le x (sortBy le xs)

/-- Modelled from the spec: survivor selection — sort an evaluated pool
by fitness (ascending, lower is better; stable, so ties keep submission
order) and keep the `k` best. -/
def selectBest {G : Type} (k : ℕ) (pool : List (G × ℚ)) : List (G × ℚ) :=
  (sortBy (fun a b => decide (a.2 ≤ b.2)) pool).take k

/-- Modelled from the spec: global best-individual tracking — the best
individual ever seen, updated as each evaluated pool is produced
(strictly better fitness replaces the incumbent). -/
def updateBest {G : Type} : Option (G × ℚ) → List (G × ℚ) → Option (G × ℚ)
  | b, [] => b
  | b, p :: ps =>
    updateBest
      (match b with
       | none => some p
       | some q => if p.2 < q.2 then some p else some q) ps

/-- Modelled from the spec: the evolving state of the calibrator — the
current evaluated population, the append-only convergence log, and the
best individual ever seen. -/
structure GAState (G : Type) where
  pop : List (G × ℚ)
  log : List ConvergenceRecord
  best : Option (G × ℚ)

/-- Modelled from the spec: one generation of the `(mu, lambda_)`
evolutionary loop.  The `mu` best of the current population seed
breeding; `lambda_` offspring are produced by the deterministic seeded
variation operator `varyOne` (selection, crossover with probability
`cxpb`, mutation with probability `mutpb`, with the random stream folded
in); all offspring are evaluated (fanned out over `n_p` workers); the
`npop` best offspring form the next generation (parents are discarded);
and one convergence record over the just-evaluated population is
appended. -/
def gaStep {G : Type} (ga : Evolution) (n_p : ℕ) (fitness : G → ℚ)
    (varyOne : List (G × ℚ) → ℕ → ℕ → G) (g : ℕ) (st : GAState G) :
    GAState G :=
  let parents := selectBest ga.mu.toNat st.pop
  let offspring := (List.range ga.lambda_.toNat).map (varyOne parents g)
  let evaluated := parallelEval n_p fitness offspring
  let newPop := selectBest ga.npop.toNat evaluated
  { pop := newPop
    log := st.log ++ [popStats g (newPop.map Prod.snd)]
    best := updateBest st.best evaluated }

/-- Modelled from the spec: the calibrator's state after `g` generations.
Generation 0 initializes and evaluates the population (over `n_p`
workers) without logging a record; each later generation applies
`gaStep`, appending exactly one record. -/
def gaRun {G : Type} (ga : Evolution) (n_p : ℕ) (fitness : G → ℚ)
    (initPop : List G) (varyOne : List (G × ℚ) → ℕ → ℕ → G) :
    ℕ → GAState G
  | 0 =>
    let ev := parallelEval n_p fitness initPop
    { pop := ev, log := [], best := updateBest none ev }
  | g + 1 => gaStep ga n_p fitness varyOne (g + 1)
      (gaRun ga n_p fitness initPop varyOne g)

/-- Modelled from the spec: a full calibration run — exactly `ngen`
generations, no early stopping. -/
def gaEvolve {G : Type} (ga : Evolution) (n_p : ℕ) (fitness : G → ℚ)
    (initPop : List G) (varyOne : List (G × ℚ) → ℕ → ℕ → G) : GAState G :=
  gaRun ga n_p fitness initPop varyOne ga.ngen.toNat

/-- A numpy array of one or two dimensions, as returned by the fitted
empirical model's `run` (`y_fit.ndim` distinguishes the two cases; a 2-D
array is a list of rows, one per time point, with one entry per
channel). -/
inductive NDArray where
  | one (v : List ℚ)
  | two (rows : List (List ℚ))
deriving DecidableEq

/-- The channel-narrowing fragment of `PKPRunner._plot_yieldfit`:
`if y_fit.ndim == 2: y_fit = y_fit[:, 0]` — a 2-D output is replaced by
its column 0 (the first channel), a 1-D output is left unchanged. -/
def narrowChannel : NDArray → List ℚ
  | .one v => v
  | .two rows => rows.map fun row => row.headD 0

/-- The per-run entry `fit_results[run] = {'t': ..., 'y': ..., 'y_fit':
...}` filled in by `PKPRunner._plot_yieldfit`: target times, target
values, and the fitted model's prediction at the target times. -/
structure RunFit where
  t : List ℚ
  y : List ℚ
  y_fit : List ℚ
deriving DecidableEq

instance : Inhabited RunFit := ⟨⟨[], [], []⟩⟩

/-- The data content of the `fit_results` dictionary assembled by
`PKPRunner._evolution` and `_plot_yieldfit` (and the `species` key set
afterwards by `_fit_model`): the named best parameters under `'best'`,
the convergence log under `'log'`, and one `{t, y, y_fit}` entry per run
identifier. -/
structure FitResults where
  best : List (String × ℚ)
  log : List ConvergenceRecord
  runs : List (String × RunFit)
  species : String := ""

/-- The loop body of `PKPRunner._plot_yieldfit` for one run: look the
run's target condition up, evaluate the fitted model at the target times
under the run's operating conditions (`t_fit, y_fit = m.run(res['t'])`
after `m.operating_conditions = self.operating_conditions[run]`), narrow
a 2-D output to its first channel, and assemble the `{t, y, y_fit}`
entry. -/
def yieldEntry (cfg : PKPConfig) (empRun : OpCond → List ℚ → List ℚ × NDArray)
    (target_conditions : List (String × TargetCondition)) (run : String) :
    RunFit :=
  let res := (target_conditions.lookup run).getD default
  let fit := empRun (cfg.operating_conditions.byKey run) res.t
  ⟨res.t, res.y, narrowChannel fit.2⟩

/-- The data part of `PKPRunner._plot_yieldfit`: iterate the run
identifiers of `target_conditions` in sorted order and, for each run,
store the target curve `{t, y}` together with the fitted empirical
model's prediction `y_fit` at the target times (`t_fit, y_fit =
m.run(res['t'])` after `m.operating_conditions =
self.operating_conditions[run]`), narrowed to the first channel when the
model output is 2-D.  `empRun` is the fitted model's `run` method
(`pkp.empirical_model` is not in the snapshot); the figure drawing and
PNG export are write-only I/O and are dropped. -/
def plot_yieldfit (cfg : PKPConfig)
    (empRun : OpCond → List ℚ → List ℚ × NDArray)
    (target_conditions : List (String × TargetCondition)) :
    List (String × RunFit) :=
  let runs := sortBy (fun a b => decide (a ≤ b))
    (target_conditions.map Prod.fst)
  runs.map fun run => (run, yieldEntry cfg empRun target_conditions run)

/-- The errors with which `PKPRunner._evolution` can abort: the
`NotImplementedError('Fit method {} not implemented!')` raised for any
method other than `'evolve'` (the spec's `UnsupportedMethodError`, whose
message names the offending method), and a `ConfigurationError` from the
calibrator's validating constructor. -/
inductive FitError where
  | unsupportedMethod (msg : String)
  | config (e : ConfigurationError)
deriving DecidableEq

/-- Embedding of `PKPRunner._evolution`.  When the method is `'evolve'`,
construct the (hard-coded binary) calibrator from the settings, run the
evolutionary search, and assemble `fit_results`: `'best'` pairs the
empirical model's parameter names (`empNames`, the class attribute
`parameters_names`) in order with the best individual's values
(`dict(zip(ga.empirical_model.parameters_names, best))`), `'log'` is the
calibrator's full convergence log, and the per-run `{t, y, y_fit}`
entries come from `_plot_yieldfit`.  Any other method raises.  The
calibrator internals absent from the snapshot are abstracted: `fitness`
is the fitness evaluator assembled from `parameters_range`/`set_target`/
`register`, `initPop` the seeded initial population, `varyOne` the seeded
variation operator, and `decode` the genotype-to-parameter decoding
applied to the best individual `ga.evolve` returns. -/
def evolution {G : Type} (cfg : PKPConfig) (empNames : List String)
    (decode : G → List ℚ) (fitness : G → ℚ) (initPop : List G)
    (varyOne : List (G × ℚ) → ℕ → ℕ → G)
    (empRun : OpCond → List ℚ → List ℚ × NDArray)
    (target_conditions : List (String × TargetCondition))
    (fs : FitSettings) (n_p : ℕ) : Except FitError FitResults :=
  if fs.method = "evolve" then
    match chooseGA fs with
    | .error e => .error (.config e)
    | .ok ga =>
      let st := gaEvolve ga n_p fitness initPop varyOne
      let bestVals := (st.best.map fun b => decode b.1).getD []
      .ok { best := empNames.zip bestVals
            log := st.log
            runs := plot_yieldfit cfg empRun target_conditions }
  else
    .error (.unsupportedMethod
      ("Fit method " ++ fs.method ++ " not implemented!"))

/-- Embedding of `PKPRunner._fit_model`: for every fit configured for the
model, narrow the detailed-model results to the fit's species
(`target_conditions`), run `_evolution`, and record the species on the
fit result. -/
def fit_model {G : Type} (cfg : PKPConfig) (empNames : List String)
    (decode : G → List ℚ) (fitness : G → ℚ) (initPop : List G)
    (varyOne : List (G × ℚ) → ℕ → ℕ → G)
    (empRun : OpCond → List ℚ → List ℚ × NDArray)
    (model_settings : List (String × FitSettings)) (n_p : ℕ)
    (results : List (String × DataFrame)) :
    List (String × Except FitError FitResults) :=
  model_settings.map fun p =>
    (p.1,
     (evolution cfg empNames decode fitness initPop varyOne empRun
        (mkTargetConditions p.2.species results) p.2 n_p).map
       fun r => { r with species := p.2.species })

/-! Concrete fixtures used to evaluate the development on closed inputs:
a small configuration with two runs, a detailed-model result table, an
always-succeeding and a run-1-failing simulator, and a tiny calibration
setup over natural-number genomes. -/

/-- A two-run configuration fixture. -/
def wCfg : PKPConfig :=
  { ultimate_analysis := [("C", 4/5), ("H", 1/5)]
    proximate_analysis := [("VM", 1/2), ("FC", 1/2)]
    operating_conditions :=
      { pressure := 1
        runs := 2
        byKey := fun s => if s = "run1" then [(0, 400), (1, 1400)]
                          else [(0, 300), (1, 1000)] }
    modelSettings := fun _ => { active := true, params := [("dt", 1/100)] } }

/-- A detailed-model result fixture. -/
def wDF : DataFrame :=
  { index := [0, 1]
    columns := [("volatiles", [0, 1]), ("T", [300, 1000])] }

/-- A simulator fixture that succeeds on every call. -/
def wSimOK : DetailedModelCall → Except SimulationError DataFrame :=
  fun _ => .ok wDF

/-- A simulator fixture whose run 1 fails with a tagged error. -/
def wSimFail : DetailedModelCall → Except SimulationError DataFrame :=
  fun c => if c.name = "CPD-Run1"
    then .error ⟨"CPD-Run1", "did not converge"⟩
    else .ok wDF

/-- A fit-settings fixture with the supported method. -/
def wFS : FitSettings :=
  { model := "constantRateModel"
    species := "volatiles"
    parameters_min := [0]
    parameters_max := [1]
    parameters_init := [1/2]
    method := "evolve"
    npop := 2
    ngen := 2
    mu := 2
    lambda_ := 2
    cxpb := 1
    mutpb := 0 }

/-- Target-condition fixture for two runs. -/
def wTCS : List (String × TargetCondition) :=
  [("run0", ⟨[0, 1], [0, 1]⟩), ("run1", ⟨[0, 1], [0, 2]⟩)]

/-- Fitness fixture over natural-number genomes. -/
def wFitness : ℕ → ℚ := fun n => n

/-- Variation-operator fixture over natural-number genomes. -/
def wVary : List (ℕ × ℚ) → ℕ → ℕ → ℕ := fun _ g i => g + i

/-- Decoding fixture over natural-number genomes. -/
def wDecode : ℕ → List ℚ := fun n => [(n : ℚ)]

/-- Empirical-model fixture: predictions at the requested times, with a
two-channel (2-D) output. -/
def wEmpRun : OpCond → List ℚ → List ℚ × NDArray :=
  fun _ t => (t, .two (t.map fun x => [x + x, x]))

/-- Empirical-model fixture with a single-channel (1-D) output. -/
def wEmpRun1 : OpCond → List ℚ → List ℚ × NDArray :=
  fun _ t => (t, .one (t.map fun x => x + x))

/-! Supporting lemmas. -/

/-- Chunking a list with enough fuel and flattening the chunks restores
the list. -/
theorem splitChunksF_flatten {α : Type} (c : ℕ) (fuel : ℕ) (l : List α)
    (h : l.length ≤ fuel) : (splitChunksF c fuel l).flatten = l := by
  induction fuel generalizing l with
  | zero =>
    cases l with
    | nil => rfl
    | cons x xs => simp at h
  | succ fuel ih =>
    cases l with
    | nil => rfl
    | cons x xs =>
      have hfit : (xs.drop c).length ≤ fuel := by
        rw [List.length_drop]
        simp at h
        omega
      simp [splitChunksF, ih (xs.drop c) hfit]

/-- Chunking a list and flattening the chunks restores the list. -/
theorem splitChunks_flatten {α : Type} (c : ℕ) (l : List α) :
    (splitChunks c l).flatten = l :=
  splitChunksF_flatten c l.length l (le_refl _)

/-- Parallel fitness evaluation is extensionally a plain map: the worker
count influences only the dispatch, never the collected results. -/
theorem parallelEval_eq_map {G : Type} (n_p : ℕ) (fitness : G → ℚ)
    (pop : List G) :
    parallelEval n_p fitness pop = pop.map fun g => (g, fitness g) := by
  unfold parallelEval
  rw [← List.map_flatten, splitChunks_flatten]

/-- Insertion produces a permutation of consing. -/
theorem insertSorted_perm {α : Type} (le : α → α → Bool) (x : α)
    (l : List α) : (insertSorted le x l).Perm (x :: l) := by
  induction l with
  | nil => exact List.Perm.refl _
  | cons y ys ih =>
    simp only [insertSorted]
    split
    · exact List.Perm.refl _
    · exact ((ih.cons y).trans (List.Perm.swap x y ys))

/-- Sorting permutes the list. -/
theorem sortBy_perm {α : Type} (le : α → α → Bool) (l : List α) :
    (sortBy le l).Perm l := by
  induction l with
  | nil => exact List.Perm.refl _
  | cons x xs ih => exact (insertSorted_perm le x (sortBy le xs)).trans (ih.cons x)

/-- Sorting keeps the length. -/
theorem sortBy_length {α : Type} (le : α → α → Bool) (l : List α) :
    (sortBy le l).length = l.length :=
  (sortBy_perm le l).length_eq

/-- Sorting keeps the members. -/
theorem sortBy_mem {α : Type} (le : α → α → Bool) (l : List α) (a : α) :
    a ∈ sortBy le l ↔ a ∈ l :=
  (sortBy_perm le l).mem_iff

/-- Looking up a key of a key-indexed map built over a list containing
that key returns the associated value. -/
theorem lookup_map_self {α β : Type} [BEq α] [LawfulBEq α] (F : α → β)
    (l : List α) (a : α) (h : a ∈ l) :
    (l.map fun r => (r, F r)).lookup a = some (F a) := by
  induction l with
  | nil => cases h
  | cons x xs ih =>
    simp only [List.map_cons, List.lookup]
    by_cases hax : a = x
    · subst hax; simp
    · have hb : (a == x) = false := beq_false_of_ne hax
      rw [hb]
      exact ih (by simpa [hax] using h)

/-- The running minimum is bounded by its seed. -/
theorem foldMin_le_seed (a : ℚ) (l : List ℚ) : foldMin a l ≤ a := by
  induction l generalizing a with
  | nil => simp [foldMin]
  | cons x xs ih => exact le_trans (ih (min a x)) (min_le_left a x)

/-- The count of summands times the running minimum bounds the sum from
below. -/
theorem foldMin_mul_le_sum (a : ℚ) (l : List ℚ) :
    ((l.length : ℚ) + 1) * foldMin a l ≤ a + l.sum := by
  induction l generalizing a with
  | nil => simp [foldMin]
  | cons x xs ih =>
    simp only [foldMin, List.sum_cons, List.length_cons]
    have h1 := ih (min a x)
    have h2 := foldMin_le_seed (min a x) xs
    have h3 : min a x ≤ a := min_le_left a x
    have h4 : min a x ≤ x := min_le_right a x
    have hsplit :
        (((xs.length : ℚ) + 1) + 1) * foldMin (min a x) xs =
          ((xs.length : ℚ) + 1) * foldMin (min a x) xs +
            foldMin (min a x) xs := by ring
    push_cast
    push_cast at h1
    linarith

/-- The running maximum is bounded below by its seed. -/
theorem seed_le_foldMax (a : ℚ) (l : List ℚ) : a ≤ foldMax a l := by
  induction l generalizing a with
  | nil => simp [foldMax]
  | cons x xs ih => exact le_trans (le_max_left a x) (ih (max a x))

/-- The count of summands times the running maximum bounds the sum from
above. -/
theorem sum_le_foldMax_mul (a : ℚ) (l : List ℚ) :
    a + l.sum ≤ ((l.length : ℚ) + 1) * foldMax a l := by
  induction l generalizing a with
  | nil => simp [foldMax]
  | cons x xs ih =>
    simp only [foldMax, List.sum_cons, List.length_cons]
    have h1 := ih (max a x)
    have h2 := seed_le_foldMax (max a x) xs
    have h3 : a ≤ max a x := le_max_left a x
    have h4 : x ≤ max a x := le_max_right a x
    push_cast
    push_cast at h1
    linarith

/-- The convergence statistics of a nonempty fitness list satisfy
`min ≤ avg` and `avg ≤ max`. -/
theorem popStats_sound (g : ℕ) (l : List ℚ) (h : l ≠ []) :
    (popStats g l).fmin ≤ (popStats g l).favg ∧
      (popStats g l).favg ≤ (popStats g l).fmax := by
  match l with
  | [] => exact absurd rfl h
  | x :: xs =>
    simp only [popStats]
    have hn : (0 : ℚ) < (xs.length : ℚ) + 1 := by positivity
    constructor
    · rw [le_div_iff₀ hn]
      have := foldMin_mul_le_sum x xs
      linarith [mul_comm (foldMin x xs) ((xs.length : ℚ) + 1)]
    · rw [div_le_iff₀ hn]
      have := sum_le_foldMax_mul x xs
      linarith [mul_comm (foldMax x xs) ((xs.length : ℚ) + 1)]

/-- Survivor selection keeps `min k (pool size)` individuals. -/
theorem selectBest_length {G : Type} (k : ℕ) (pool : List (G × ℚ)) :
    (selectBest k pool).length = min k pool.length := by
  unfold selectBest
  rw [List.length_take, sortBy_length]

/-- After `g` generations the convergence log holds exactly `g`
records. -/
theorem gaRun_log_length {G : Type} (ga : Evolution) (n_p : ℕ)
    (fitness : G → ℚ) (initPop : List G)
    (varyOne : List (G × ℚ) → ℕ → ℕ → G) (g : ℕ) :
    (gaRun ga n_p fitness initPop varyOne g).log.length = g := by
  induction g with
  | zero => rfl
  | succ g ih =>
    simp only [gaRun, gaStep, List.length_append, ih, List.length_cons,
      List.length_nil]

/-- Every record the evolutionary loop ever appends summarizes a
nonempty population, provided the configured population and offspring
counts are positive. -/
theorem gaRun_log_sound {G : Type} (ga : Evolution) (n_p : ℕ)
    (fitness : G → ℚ) (initPop : List G)
    (varyOne : List (G × ℚ) → ℕ → ℕ → G) (g : ℕ)
    (hnpop : 0 < ga.npop) (hlam : 0 < ga.lambda_) :
    ∀ r ∈ (gaRun ga n_p fitness initPop varyOne g).log,
      r.fmin ≤ r.favg ∧ r.favg ≤ r.fmax := by
  induction g with
  | zero => intro r hr; cases hr
  | succ g ih =>
    intro r hr
    simp only [gaRun, gaStep, List.mem_append, List.mem_singleton] at hr
    rcases hr with hr | hr
    · exact ih r hr
    · subst hr
      apply popStats_sound
      have hlen :
          ((selectBest ga.npop.toNat
            (parallelEval n_p fitness
              ((List.range ga.lambda_.toNat).map
                (varyOne (selectBest ga.mu.toNat
                  (gaRun ga n_p fitness initPop varyOne g).pop) (g + 1))))).map
            Prod.snd).length ≠ 0 := by
        rw [List.length_map, selectBest_length,
          parallelEval_eq_map, List.length_map, List.length_map,
          List.length_range]
        have h1 : 0 < ga.npop.toNat := by omega
        have h2 : 0 < ga.lambda_.toNat := by omega
        omega
      intro hnil
      rw [hnil] at hlen
      exact hlen rfl

/-- One generation of the loop does not depend on the worker count. -/
theorem gaStep_np {G : Type} (ga : Evolution) (n_p n_p' : ℕ)
    (fitness : G → ℚ) (varyOne : List (G × ℚ) → ℕ → ℕ → G) (g : ℕ)
    (st : GAState G) :
    gaStep ga n_p fitness varyOne g st = gaStep ga n_p' fitness varyOne g st := by
  simp only [gaStep, parallelEval_eq_map]

/-- The population, log and best individual after any number of
generations do not depend on the worker count. -/
theorem gaRun_np {G : Type} (ga : Evolution) (n_p n_p' : ℕ)
    (fitness : G → ℚ) (initPop : List G)
    (varyOne : List (G × ℚ) → ℕ → ℕ → G) (g : ℕ) :
    gaRun ga n_p fitness initPop varyOne g =
      gaRun ga n_p' fitness initPop varyOne g := by
  induction g with
  | zero => simp only [gaRun, parallelEval_eq_map]
  | succ g ih => rw [gaRun, gaRun, ih, gaStep_np ga n_p n_p']

/-- A successful calibrator construction records exactly the requested
settings and implies the positivity checks passed. -/
theorem configure_ok_iff (npop ngen mu lambda_ : ℤ) (cxpb mutpb : ℚ)
    (binary : Bool) (ga : Evolution) :
    Evolution.configure npop ngen mu lambda_ cxpb mutpb binary = .ok ga ↔
      (ga = ⟨npop, ngen, cxpb, mutpb, mu, lambda_, binary⟩ ∧ 0 < npop ∧
        0 < ngen ∧ 0 ≤ cxpb ∧ cxpb ≤ 1 ∧ 0 ≤ mutpb ∧ mutpb ≤ 1) := by
  unfold Evolution.configure
  split_ifs with h1 h2 h3 h4
  · simp only [reduceCtorEq, false_iff]
    intro hc
    omega
  · simp only [reduceCtorEq, false_iff]
    intro hc
    omega
  · simp only [reduceCtorEq, false_iff]
    intro hc
    rcases h3 with h3 | h3 <;> linarith [hc.2.2.2.1, hc.2.2.2.2.1]
  · simp only [reduceCtorEq, false_iff]
    intro hc
    rcases h4 with h4 | h4 <;> linarith [hc.2.2.2.2.2.1, hc.2.2.2.2.2.2]
  · push_neg at h3 h4
    constructor
    · intro hc
      exact ⟨(Except.ok.inj hc).symm, by omega, by omega,
        h3.1, h3.2, h4.1, h4.2⟩
    · intro hc
      rw [hc.1]

/-- If every run up to `k` succeeds and run `k` fails, the `_run_model`
loop over a run list that reaches `k` aborts with exactly the simulator's
error. -/
theorem run_model_loop_error
    (simulate : DetailedModelCall → Except SimulationError DataFrame)
    (cfg : PKPConfig) (model : String) (ms : ModelSettings)
    (l1 l2 : List ℕ) (k : ℕ) (e : SimulationError)
    (hok : ∀ n ∈ l1, ∃ df, simulate (mkCall cfg model ms n) = .ok df)
    (hk : simulate (mkCall cfg model ms k) = .error e) :
    (run_model_loop simulate cfg model ms (l1 ++ k :: l2)).2 = .error e := by
  induction l1 with
  | nil =>
    simp only [List.nil_append, run_model_loop, run_single]
    rw [hk]
  | cons n ns ih =>
    obtain ⟨df, hdf⟩ := hok n (List.mem_cons_self n ns)
    have ih' := ih fun m hm => hok m (List.mem_cons_of_mem n hm)
    simp only [List.cons_append, run_model_loop, run_single]
    rw [hdf]
    simp only [List.append_eq]
    rw [ih']

/-- If every run in the list succeeds, the `_run_model` loop invokes the
simulator once per listed run, in order, and stores each result under
`'run{n}'`. -/
theorem run_model_loop_ok
    (simulate : DetailedModelCall → Except SimulationError DataFrame)
    (cfg : PKPConfig) (model : String) (ms : ModelSettings)
    (out : ℕ → DataFrame) (l : List ℕ)
    (hok : ∀ n ∈ l, simulate (mkCall cfg model ms n) = .ok (out n)) :
    run_model_loop simulate cfg model ms l =
      (l.map (mkCall cfg model ms), .ok (l.map fun n => (runKey n, out n))) := by
  induction l with
  | nil => rfl
  | cons n ns ih =>
    have hn := hok n (List.mem_cons_self n ns)
    have ih' := ih fun m hm => hok m (List.mem_cons_of_mem n hm)
    simp only [run_model_loop, run_single]
    rw [hn, ih']
    simp

/-! Claim theorems. -/

/-- C10: for every fit performed with method `"evolve"`, the driver
always constructs the binary-encoded evolutionary calibrator: the local
variable `binary = True` is hard-coded, so `chooseGA` coincides with
constructing `EvolutionBinary` (the `binary := true` calibrator) for
every settings value — the encoding is not read from the configuration
(`FitSettings` carries no encoding field, mirroring the keys the code
reads) and the real-valued `Evolution` branch is unreachable — and any
successfully constructed calibrator carries `binary = true`. -/
theorem chooseGA_always_binary :
    (∀ fs : FitSettings,
      chooseGA fs =
        Evolution.configure fs.npop fs.ngen fs.mu fs.lambda_
          fs.cxpb fs.mutpb true) ∧
    (∀ (fs : FitSettings) (ga : Evolution),
      chooseGA fs = .ok ga → ga.binary = true) := by
  constructor
  · intro fs
    rfl
  · intro fs ga h
    have h' : Evolution.configure fs.npop fs.ngen fs.mu fs.lambda_
        fs.cxpb fs.mutpb true = .ok ga := h
    rw [configure_ok_iff] at h'
    rw [h'.1]

/-- Witness for C10 at the concrete fixture settings. -/
theorem chooseGA_always_binary_witness :
    (⟨2, 2, 1, 0, 2, 2, true⟩ : Evolution).binary = true :=
  chooseGA_always_binary.2 wFS ⟨2, 2, 1, 0, 2, 2, true⟩ rfl

/-- C7: for every calibration configuration with `npop ≤ 0`, `ngen ≤ 0`,
or a probability `cxpb` or `mutpb` outside `[0, 1]`, configuring the
evolutionary calibrator fails with a `ConfigurationError`, and the
calibration driver `_evolution` propagates exactly that error — no
fit result is produced, so no generation ever runs. -/
theorem configure_rejects_invalid {G : Type} (cfg : PKPConfig)
    (empNames : List String) (decode : G → List ℚ) (fitness : G → ℚ)
    (initPop : List G) (varyOne : List (G × ℚ) → ℕ → ℕ → G)
    (empRun : OpCond → List ℚ → List ℚ × NDArray)
    (tcs : List (String × TargetCondition)) (fs : FitSettings) (n_p : ℕ)
    (hm : fs.method = "evolve")
    (hbad : fs.npop ≤ 0 ∨ fs.ngen ≤ 0 ∨ fs.cxpb < 0 ∨ 1 < fs.cxpb ∨
      fs.mutpb < 0 ∨ 1 < fs.mutpb) :
    ∃ e, chooseGA fs = .error e ∧
      evolution cfg empNames decode fitness initPop varyOne empRun
        tcs fs n_p = .error (.config e) := by
  have hex : ∃ e, chooseGA fs = .error e := by
    cases hga : chooseGA fs with
    | error e => exact ⟨e, rfl⟩
    | ok ga =>
      have h' : Evolution.configure fs.npop fs.ngen fs.mu fs.lambda_
          fs.cxpb fs.mutpb true = .ok ga := hga
      rw [configure_ok_iff] at h'
      obtain ⟨-, hp1, hp2, hc1, hc2, hm1, hm2⟩ := h'
      rcases hbad with h | h | h | h | h | h
      · omega
      · omega
      · linarith
      · linarith
      · linarith
      · linarith
  obtain ⟨e, he⟩ := hex
  refine ⟨e, he, ?_⟩
  unfold evolution
  rw [if_pos hm, he]

/-- Witness for C7: a zero population size is rejected and the driver
propagates the configuration error. -/
theorem configure_rejects_invalid_witness :
    ∃ e, chooseGA { wFS with npop := 0 } = .error e ∧
      evolution wCfg ["k"] wDecode wFitness [0, 1] wVary wEmpRun wTCS
        { wFS with npop := 0 } 1 = .error (.config e) :=
  configure_rejects_invalid wCfg ["k"] wDecode wFitness [0, 1] wVary
    wEmpRun wTCS { wFS with npop := 0 } 1 rfl (.inl (by decide))

/-- C1: for every fit configuration whose method is not `"evolve"`,
starting a calibration fails with the unsupported-method error whose
message names the offending method value (the code's
`NotImplementedError('Fit method {} not implemented!'.format(method))`),
before any evolution work; when the method is `"evolve"` the calibration
proceeds past the method check — it either completes or fails only with
a configuration error, never with the unsupported-method error. -/
theorem evolution_method_guard {G : Type} (cfg : PKPConfig)
    (empNames : List String) (decode : G → List ℚ) (fitness : G → ℚ)
    (initPop : List G) (varyOne : List (G × ℚ) → ℕ → ℕ → G)
    (empRun : OpCond → List ℚ → List ℚ × NDArray)
    (tcs : List (String × TargetCondition)) (fs : FitSettings) (n_p : ℕ) :
    (fs.method ≠ "evolve" →
      evolution cfg empNames decode fitness initPop varyOne empRun
        tcs fs n_p =
        .error (.unsupportedMethod
          ("Fit method " ++ fs.method ++ " not implemented!"))) ∧
    (fs.method = "evolve" →
      (∃ r, evolution cfg empNames decode fitness initPop varyOne empRun
          tcs fs n_p = .ok r) ∨
      (∃ e, evolution cfg empNames decode fitness initPop varyOne empRun
          tcs fs n_p = .error (.config e))) := by
  constructor
  · intro hm
    unfold evolution
    rw [if_neg hm]
  · intro hm
    unfold evolution
    rw [if_pos hm]
    cases hga : chooseGA fs with
    | error e => exact .inr ⟨e, rfl⟩
    | ok ga => exact .inl ⟨_, rfl⟩

/-- Witness for C1: the method `"leastsq"` is rejected with an error
naming it, and the method `"evolve"` proceeds. -/
theorem evolution_method_guard_witness :
    (evolution wCfg ["k"] wDecode wFitness [0, 1] wVary wEmpRun wTCS
      { wFS with method := "leastsq" } 1 =
      .error (.unsupportedMethod "Fit method leastsq not implemented!")) ∧
    ((∃ r, evolution wCfg ["k"] wDecode wFitness [0, 1] wVary wEmpRun wTCS
        wFS 1 = .ok r) ∨
     (∃ e, evolution wCfg ["k"] wDecode wFitness [0, 1] wVary wEmpRun wTCS
        wFS 1 = .error (.config e))) :=
  ⟨(evolution_method_guard wCfg ["k"] wDecode wFitness [0, 1] wVary
      wEmpRun wTCS { wFS with method := "leastsq" } 1).1 (by decide),
   (evolution_method_guard wCfg ["k"] wDecode wFitness [0, 1] wVary
      wEmpRun wTCS wFS 1).2 rfl⟩

/-- C2: if, among the configured runs of an active detailed model, every
run before `k` simulates successfully and run `k` raises, then
`_run_model` surfaces exactly the simulator's error — which carries the
failing run's identity — to its caller, and produces no results mapping
at all: the `Except.error` outcome has no payload, so no run is silently
skipped and no partial dataset can reach the fit. -/
theorem run_model_error_propagation
    (simulate : DetailedModelCall → Except SimulationError DataFrame)
    (cfg : PKPConfig) (model : String) (k : ℕ) (e : SimulationError)
    (hactive : (cfg.modelSettings model).active = true)
    (hk : k < cfg.operating_conditions.runs)
    (hok : ∀ n, n < k →
      ∃ df, simulate (mkCall cfg model (cfg.modelSettings model) n) = .ok df)
    (herr : simulate (mkCall cfg model (cfg.modelSettings model) k) =
      .error e) :
    (run_model simulate cfg model).2 = .error e := by
  obtain ⟨m, hm⟩ : ∃ m, cfg.operating_conditions.runs = k + (m + 1) :=
    ⟨cfg.operating_conditions.runs - k - 1, by omega⟩
  have hdecomp : List.range (k + (m + 1)) =
      List.range k ++ k :: ((List.range m).map fun i => k + (i + 1)) := by
    rw [List.range_add, List.range_succ_eq_map]
    simp [List.map_map, Function.comp_def]
  have hloop := run_model_loop_error simulate cfg model
    (cfg.modelSettings model) (List.range k)
    ((List.range m).map fun i => k + (i + 1)) k e
    (fun n hn => hok n (List.mem_range.mp hn)) herr
  unfold run_model
  rw [if_pos hactive, hm, hdecomp]
  simp only []
  rw [hloop]
  rfl

/-- Witness for C2 at the fixture: run 1 of 2 fails, and `_run_model`
returns exactly that tagged error. -/
theorem run_model_error_propagation_witness :
    (run_model wSimFail wCfg "CPD").2 =
      .error ⟨"CPD-Run1", "did not converge"⟩ :=
  run_model_error_propagation wSimFail wCfg "CPD" 1
    ⟨"CPD-Run1", "did not converge"⟩ rfl (by decide)
    (fun n hn => ⟨wDF, by
      have h0 : n = 0 := by omega
      subst h0
      rfl⟩)
    rfl

/-- C5: when every simulation of an active detailed model succeeds, the
model is invoked exactly once per run index `n` in `[0, runs)` — the
invocation trace is precisely the calls for runs `0, 1, ..., runs-1` in
order, each carrying the shared fuel composition (ultimate and proximate
analysis) and shared pressure together with the run-specific operating
condition stored under the key `'run{n}'` — and the resulting time
series is stored in the results mapping under that same key `'run{n}'`,
in position `n`. -/
theorem run_model_runs_exact
    (simulate : DetailedModelCall → Except SimulationError DataFrame)
    (cfg : PKPConfig) (model : String) (out : ℕ → DataFrame)
    (hactive : (cfg.modelSettings model).active = true)
    (hok : ∀ n, n < cfg.operating_conditions.runs →
      simulate (mkCall cfg model (cfg.modelSettings model) n) =
        .ok (out n)) :
    run_model simulate cfg model =
      ((List.range cfg.operating_conditions.runs).map
        (mkCall cfg model (cfg.modelSettings model)),
       .ok (some ((List.range cfg.operating_conditions.runs).map
        fun n => (runKey n, out n)))) := by
  unfold run_model
  rw [if_pos hactive]
  simp only []
  rw [run_model_loop_ok simulate cfg model (cfg.modelSettings model) out
    (List.range cfg.operating_conditions.runs)
    (fun n hn => hok n (List.mem_range.mp hn))]
  rfl

/-- Witness for C5 at the fixture: two successful runs produce two
invocations and two stored results `run0`, `run1`. -/
theorem run_model_runs_exact_witness :
    run_model wSimOK wCfg "CPD" =
      ((List.range 2).map (mkCall wCfg "CPD" (wCfg.modelSettings "CPD")),
       .ok (some ((List.range 2).map fun n => (runKey n, wDF)))) :=
  run_model_runs_exact wSimOK wCfg "CPD" (fun _ => wDF) rfl
    (fun _ _ => rfl)

/-- C3: for every run of the fitted empirical model inside
`_plot_yieldfit`, if the model's predicted output array is 2-dimensional
then exactly the first channel (column 0) is stored as the predicted
yield curve `y_fit` of that run's fit-results entry, while a
1-dimensional output is stored unchanged. -/
theorem plot_yieldfit_first_channel (cfg : PKPConfig)
    (empRun : OpCond → List ℚ → List ℚ × NDArray)
    (tcs : List (String × TargetCondition)) (run : String)
    (hmem : run ∈ tcs.map Prod.fst) :
    (∀ t_fit rows,
      empRun (cfg.operating_conditions.byKey run)
          ((tcs.lookup run).getD default).t = (t_fit, .two rows) →
      (plot_yieldfit cfg empRun tcs).lookup run =
        some ⟨((tcs.lookup run).getD default).t,
              ((tcs.lookup run).getD default).y,
              rows.map fun row => row.headD 0⟩) ∧
    (∀ t_fit v,
      empRun (cfg.operating_conditions.byKey run)
          ((tcs.lookup run).getD default).t = (t_fit, .one v) →
      (plot_yieldfit cfg empRun tcs).lookup run =
        some ⟨((tcs.lookup run).getD default).t,
              ((tcs.lookup run).getD default).y, v⟩) := by
  have hmem' : run ∈ sortBy (fun a b => decide (a ≤ b)) (tcs.map Prod.fst) :=
    (sortBy_mem _ _ run).mpr hmem
  have hlook : (plot_yieldfit cfg empRun tcs).lookup run =
      some (yieldEntry cfg empRun tcs run) := by
    unfold plot_yieldfit
    exact lookup_map_self (yieldEntry cfg empRun tcs) _ run hmem'
  constructor
  · intro t_fit rows hrun
    rw [hlook]
    simp only [yieldEntry]
    rw [hrun]
    rfl
  · intro t_fit v hrun
    rw [hlook]
    simp only [yieldEntry]
    rw [hrun]
    rfl

/-- Witness for C3 at the fixture: a two-channel model output is
narrowed to its first column, a one-channel output is kept. -/
theorem plot_yieldfit_first_channel_witness :
    ((plot_yieldfit wCfg wEmpRun wTCS).lookup "run0" =
      some ⟨((wTCS.lookup "run0").getD default).t,
            ((wTCS.lookup "run0").getD default).y,
            (((wTCS.lookup "run0").getD default).t.map
              fun x => [x + x, x]).map fun row => row.headD 0⟩) ∧
    ((plot_yieldfit wCfg wEmpRun1 wTCS).lookup "run0" =
      some ⟨((wTCS.lookup "run0").getD default).t,
            ((wTCS.lookup "run0").getD default).y,
            ((wTCS.lookup "run0").getD default).t.map fun x => x + x⟩) :=
  ⟨(plot_yieldfit_first_channel wCfg wEmpRun wTCS "run0" (by decide)).1
      ((wTCS.lookup "run0").getD default).t
      (((wTCS.lookup "run0").getD default).t.map fun x => [x + x, x]) rfl,
   (plot_yieldfit_first_channel wCfg wEmpRun1 wTCS "run0" (by decide)).2
      ((wTCS.lookup "run0").getD default).t
      (((wTCS.lookup "run0").getD default).t.map fun x => x + x) rfl⟩

/-- C4: for every completed calibration (method `"evolve"`, calibrator
successfully configured, best individual `b` tracked), the returned fit
result contains: under `'best'`, the empirical model's parameter names
paired in order with the best individual's values; under `'log'`, the
calibrator's full convergence log; and, for every run identifier, the
`{t, y, y_fit}` triple of target times, target values, and the fitted
model's prediction at those times. -/
theorem evolution_fit_results_content {G : Type} (cfg : PKPConfig)
    (empNames : List String) (decode : G → List ℚ) (fitness : G → ℚ)
    (initPop : List G) (varyOne : List (G × ℚ) → ℕ → ℕ → G)
    (empRun : OpCond → List ℚ → List ℚ × NDArray)
    (tcs : List (String × TargetCondition)) (fs : FitSettings) (n_p : ℕ)
    (ga : Evolution) (b : G × ℚ)
    (hm : fs.method = "evolve")
    (hga : chooseGA fs = .ok ga)
    (hbest : (gaEvolve ga n_p fitness initPop varyOne).best = some b) :
    evolution cfg empNames decode fitness initPop varyOne empRun
        tcs fs n_p =
      .ok { best := empNames.zip (decode b.1)
            log := (gaEvolve ga n_p fitness initPop varyOne).log
            runs := plot_yieldfit cfg empRun tcs } ∧
    ∀ run ∈ tcs.map Prod.fst,
      (plot_yieldfit cfg empRun tcs).lookup run =
        some ⟨((tcs.lookup run).getD default).t,
              ((tcs.lookup run).getD default).y,
              narrowChannel (empRun (cfg.operating_conditions.byKey run)
                ((tcs.lookup run).getD default).t).2⟩ := by
  constructor
  · unfold evolution
    rw [if_pos hm, hga]
    simp only [hbest]
    rfl
  · intro run hrun
    have hmem' : run ∈ sortBy (fun a b => decide (a ≤ b))
        (tcs.map Prod.fst) := (sortBy_mem _ _ run).mpr hrun
    unfold plot_yieldfit
    rw [lookup_map_self (yieldEntry cfg empRun tcs) _ run hmem']
    rfl

/-- Witness for C4 at the fixture calibration. -/
theorem evolution_fit_results_content_witness :
    evolution wCfg ["k"] wDecode wFitness [0, 1] wVary wEmpRun wTCS wFS 1 =
      .ok { best := ["k"].zip (wDecode 0)
            log := (gaEvolve ⟨2, 2, 1, 0, 2, 2, true⟩ 1 wFitness [0, 1]
              wVary).log
            runs := plot_yieldfit wCfg wEmpRun wTCS } ∧
    ∀ run ∈ wTCS.map Prod.fst,
      (plot_yieldfit wCfg wEmpRun wTCS).lookup run =
        some ⟨((wTCS.lookup run).getD default).t,
              ((wTCS.lookup run).getD default).y,
              narrowChannel (wEmpRun (wCfg.operating_conditions.byKey run)
                ((wTCS.lookup run).getD default).t).2⟩ :=
  evolution_fit_results_content wCfg ["k"] wDecode wFitness [0, 1] wVary
    wEmpRun wTCS wFS 1 ⟨2, 2, 1, 0, 2, 2, true⟩ (0, 0) rfl rfl rfl

/-- C6: for every fit and every run result, `_fit_model` forms exactly
one target condition, keyed by the run identifier — the keys of
`target_conditions` are exactly the keys of the results mapping, in
order — whose `t` is the run result's time index and whose `y` is the
column named by the fit's configured species; and `_fit_model` hands
each fit's `_evolution` call exactly the target conditions narrowed with
that fit's own species. -/
theorem fit_model_target_narrowing {G : Type} (cfg : PKPConfig)
    (empNames : List String) (decode : G → List ℚ) (fitness : G → ℚ)
    (initPop : List G) (varyOne : List (G × ℚ) → ℕ → ℕ → G)
    (empRun : OpCond → List ℚ → List ℚ × NDArray)
    (model_settings : List (String × FitSettings)) (n_p : ℕ)
    (species : String) (results : List (String × DataFrame)) :
    ((mkTargetConditions species results).map Prod.fst =
      results.map Prod.fst) ∧
    (∀ p ∈ results, ∀ ys, p.2.columns.lookup species = some ys →
      (p.1, (⟨p.2.index, ys⟩ : TargetCondition)) ∈
        mkTargetConditions species results) ∧
    (fit_model cfg empNames decode fitness initPop varyOne empRun
        model_settings n_p results =
      model_settings.map fun p =>
        (p.1,
         (evolution cfg empNames decode fitness initPop varyOne empRun
            (mkTargetConditions p.2.species results) p.2 n_p).map
           fun r => { r with species := p.2.species })) := by
  refine ⟨?_, ?_, rfl⟩
  · unfold mkTargetConditions
    rw [List.map_map]
    rfl
  · intro p hp ys hys
    unfold mkTargetConditions
    apply List.mem_map.mpr
    refine ⟨p, hp, ?_⟩
    unfold DataFrame.col
    rw [hys]
    rfl

/-- Witness for C6 at the fixture results. -/
theorem fit_model_target_narrowing_witness :
    ("run0", (⟨wDF.index, [0, 1]⟩ : TargetCondition)) ∈
      mkTargetConditions "volatiles" [("run0", wDF), ("run1", wDF)] :=
  (fit_model_target_narrowing wCfg ["k"] wDecode wFitness [0, 1] wVary
    wEmpRun [("fit0", wFS)] 1 "volatiles"
    [("run0", wDF), ("run1", wDF)]).2.1 ("run0", wDF) (by decide)
    [0, 1] (by decide)

/-- C8: for every completed calibration whose calibrator was
successfully configured with generation count `ngen = N` (and a positive
offspring count), the convergence log contains exactly `N` records — one
appended per completed generation — and every record satisfies
`min ≤ avg ≤ max` over that generation's population fitness. -/
theorem gaEvolve_log_length_bounds {G : Type} (npop ngen mu lambda_ : ℤ)
    (cxpb mutpb : ℚ) (binary : Bool) (ga : Evolution)
    (hga : Evolution.configure npop ngen mu lambda_ cxpb mutpb binary =
      .ok ga)
    (hlam : 0 < lambda_) (n_p : ℕ) (fitness : G → ℚ) (initPop : List G)
    (varyOne : List (G × ℚ) → ℕ → ℕ → G) :
    (gaEvolve ga n_p fitness initPop varyOne).log.length = ngen.toNat ∧
    ∀ r ∈ (gaEvolve ga n_p fitness initPop varyOne).log,
      r.fmin ≤ r.favg ∧ r.favg ≤ r.fmax := by
  obtain ⟨hga', hnpop, hngen, -⟩ :=
    (configure_ok_iff npop ngen mu lambda_ cxpb mutpb binary ga).mp hga
  subst hga'
  exact ⟨gaRun_log_length _ n_p fitness initPop varyOne _,
    gaRun_log_sound _ n_p fitness initPop varyOne _ hnpop hlam⟩

/-- Witness for C8: a two-generation fixture calibration with three
workers has a two-record, well-ordered log. -/
theorem gaEvolve_log_length_bounds_witness :
    (gaEvolve ⟨2, 2, 1, 0, 2, 2, true⟩ 3 wFitness [0, 1] wVary).log.length =
      (2 : ℤ).toNat ∧
    ∀ r ∈ (gaEvolve ⟨2, 2, 1, 0, 2, 2, true⟩ 3 wFitness [0, 1] wVary).log,
      r.fmin ≤ r.favg ∧ r.favg ≤ r.fmax :=
  gaEvolve_log_length_bounds 2 2 2 2 1 0 true ⟨2, 2, 1, 0, 2, 2, true⟩
    rfl (by decide) 3 wFitness [0, 1] wVary

/-- C9: for a fixed (deterministically seeded) initial population,
fitness function and variation operator, two calibration runs that
differ only in the worker count `n_p` produce identical populations,
logs and best individuals at the end of every generation, and hence the
driver's fit result — best-parameter output, convergence log and per-run
curves — is identical: parallel dispatch only partitions the pure
fitness evaluations, whose results are collected back in submission
order, so the worker count never influences which individuals are
produced or selected. -/
theorem evolution_worker_count_irrelevant {G : Type} (cfg : PKPConfig)
    (empNames : List String) (decode : G → List ℚ) (fitness : G → ℚ)
    (initPop : List G) (varyOne : List (G × ℚ) → ℕ → ℕ → G)
    (empRun : OpCond → List ℚ → List ℚ × NDArray)
    (tcs : List (String × TargetCondition)) (fs : FitSettings)
    (ga : Evolution) (n_p n_p' : ℕ) :
    (∀ g, gaRun ga n_p fitness initPop varyOne g =
      gaRun ga n_p' fitness initPop varyOne g) ∧
    gaEvolve ga n_p fitness initPop varyOne =
      gaEvolve ga n_p' fitness initPop varyOne ∧
    evolution cfg empNames decode fitness initPop varyOne empRun
        tcs fs n_p =
      evolution cfg empNames decode fitness initPop varyOne empRun
        tcs fs n_p' := by
  refine ⟨gaRun_np ga n_p n_p' fitness initPop varyOne,
    gaRun_np ga n_p n_p' fitness initPop varyOne ga.ngen.toNat, ?_⟩
  unfold evolution
  by_cases h : fs.method = "evolve"
  · rw [if_pos h, if_pos h]
    cases hga : chooseGA fs with
    | error e => rfl
    | ok ga' =>
      have heq : gaEvolve ga' n_p fitness initPop varyOne =
          gaEvolve ga' n_p' fitness initPop varyOne :=
        gaRun_np ga' n_p n_p' fitness initPop varyOne ga'.ngen.toNat
      simp only [heq]
  · rw [if_neg h, if_neg h]

